import Mathlib

/-!
Verification of the Letter Challenge server (src/server.js): a shallow
embedding of its dictionary checks, letter-set generator, game-state
transition function and matchmaking event handlers, with theorems that
check the claims of the specification against the embedded code.

The global `serverDictionary` set is passed to every function as an
explicit `dict : List String` parameter, and every call to
`Math.random()` is modelled by an explicitly supplied stream of natural
numbers, so all definitions are executable and deterministic.
-/

namespace LetterChallenge

/-- Number of occurrences of a character in a list: the frequency map the
server builds with `counts[l] = (counts[l] || 0) + 1`. -/
def cnt (c : Char) : List Char → Nat
  | [] => 0
  | a :: l => (if a = c then 1 else 0) + cnt c l

/-- `word.toLowerCase()` at the character level. -/
def lowerStr (s : String) : String :=
  String.mk (s.data.map Char.toLower)

/-- The loop of `canMake`: walk the word, decrementing the counts map,
failing when the count of the next character is exhausted. -/
def canMakeGo (counts : Char → Nat) : List Char → Bool
  | [] => true
  | c :: rest =>
    if counts c = 0 then false
    else canMakeGo (fun x => if x = c then counts x - 1 else counts x) rest

/-- `canMake(word, lettersArr)` from server.js: frequency-constrained
formability of `word` from the multiset of letters. -/
def canMake (word : List Char) (lettersArr : List Char) : Bool :=
  canMakeGo (fun c => cnt c lettersArr) word

/-- The letters-feasibility check exactly as `isWordValid` invokes
`canMake`: the letters are lowercased, the word is passed as submitted. -/
def letterFeasible (word : String) (lettersArr : List Char) : Bool :=
  canMake word.data (lettersArr.map Char.toLower)

/-- `isWordValid(word, lettersArr)` from server.js, with the global
`serverDictionary` passed explicitly as a list of its elements. -/
def isWordValid (dict : List String) (word : String) (lettersArr : List Char) : Bool :=
  if dict.length ≠ 0 ∧ ¬ dict.contains (lowerStr word) then false
  else letterFeasible word lettersArr

/-- Modelled from the spec (the Dictionary Oracle operation
`canFormFromLetters(word, letters)`, not present under this name in the
source): true iff, treating the letters as a multiset of single
characters case-insensitively, every character of the word can be drawn
from that multiset without reuse beyond its multiplicity. -/
def canFormFromLetters (word : String) (letters : List Char) : Bool :=
  (word.data.map Char.toLower).all fun c =>
    decide (cnt c (word.data.map Char.toLower) ≤ cnt c (letters.map Char.toLower))

/-- The scanning loop of `countDictionaryMatches`: skip words shorter
than 2, count formable words, stop as soon as the count reaches 1000. -/
def countLoop (letters : List Char) : List String → Nat → Nat
  | [], count => count
  | w :: ws, count =>
    if w.length < 2 then countLoop letters ws count
    else
      if 1000 ≤ (if canMake w.data letters then count + 1 else count) then
        (if canMake w.data letters then count + 1 else count)
      else countLoop letters ws (if canMake w.data letters then count + 1 else count)

/-- `countDictionaryMatches(lettersArr)` from server.js: returns the
sentinel 5 when the dictionary is empty. -/
def countDictionaryMatches (dict : List String) (lettersArr : List Char) : Nat :=
  if dict.length = 0 then 5
  else countLoop (lettersArr.map Char.toLower) dict 0

/-- The alphabet array built by splitting the alphabet string. -/
def alphaList : List Char := "ABCDEFGHIJKLMNOPQRSTUVWXYZ".data

/-- One in-place swap of positions `i` and `j`. -/
def swapL (l : List Char) (i j : Nat) : List Char :=
  match l.get? i, l.get? j with
  | some a, some b => (l.set i b).set j a
  | _, _ => l

/-- The Fisher-Yates loop of `shuffleArray`, with the random draws
supplied by `js`: at index `i` the swap partner is `js i % (i+1)`,
matching `Math.floor(Math.random()*(i+1))`. -/
def shuffleGo (js : Nat → Nat) : List Char → Nat → List Char
  | l, 0 => l
  | l, i+1 => shuffleGo js (swapL l (i+1) (js (i+1) % (i+2))) i

/-- `shuffleArray(array)` from server.js: shuffles the array in place
(mutating its argument) and returns it. -/
def shuffleArray (js : Nat → Nat) (l : List Char) : List Char :=
  shuffleGo js l (l.length - 1)

/-- A random source: one natural-number draw per attempt and per index. -/
abbrev Rand := Nat → Nat → Nat

/-- The retry loop of `pickLettersWithAtLeastNWords`.  The JS code
shuffles the single `alpha` array in place, so the array state is
threaded through the attempts, and the fallback takes the first `size`
letters of the array as mutated by all the preceding shuffles. -/
def pickGo (dict : List String) (size n : Nat) (rand : Rand) : Nat → Nat → List Char → List Char
  | _, 0, arr => arr.take size
  | attempt, fuel+1, arr =>
    if n ≤ countDictionaryMatches dict ((shuffleArray (rand attempt) arr).take size) then
      (shuffleArray (rand attempt) arr).take size
    else pickGo dict size n rand (attempt+1) fuel (shuffleArray (rand attempt) arr)

/-- `pickLettersWithAtLeastNWords(size, n)` from server.js, with the
dictionary and random source passed explicitly; 10000 bounded attempts. -/
def pickLettersWithAtLeastNWords (dict : List String) (size n : Nat) (rand : Rand) : List Char :=
  pickGo dict size n rand 0 10000 alphaList

/-- The random source used in the concrete runs below: attempt 0 swaps
every position with position 0, every later attempt draws the identity
(so its Fisher-Yates pass is a no-op). -/
def rand0 : Rand := fun attempt i => if attempt = 0 then 0 else i

/-- The identity random source: every Fisher-Yates pass is a no-op. -/
def idRand : Rand := fun _ i => i

/-- The alphabet array after the attempt-0 shuffle of `rand0`. -/
def alpha1 : List Char := shuffleArray (rand0 0) alphaList

-- Helper lemmas about counting and `canMake`.

theorem cnt_of_not_mem (c : Char) (l : List Char) (h : c ∉ l) : cnt c l = 0 := by
  induction l with
  | nil => rfl
  | cons a t ih =>
    rw [List.mem_cons, not_or] at h
    have hac : ¬ a = c := fun hh => h.1 hh.symm
    simp [cnt, hac, ih h.2]

theorem canMakeGo_iff (w : List Char) : ∀ counts : Char → Nat,
    canMakeGo counts w = true ↔ ∀ c, cnt c w ≤ counts c := by
  induction w with
  | nil =>
    intro counts
    simp [canMakeGo, cnt]
  | cons a t ih =>
    intro counts
    by_cases h : counts a = 0
    · simp only [canMakeGo, if_pos h]
      constructor
      · intro hf
        cases hf
      · intro hall
        exfalso
        have h1 := hall a
        simp [cnt, h] at h1
    · simp only [canMakeGo, if_neg h]
      rw [ih]
      constructor
      · intro hall c
        by_cases hca : c = a
        · subst hca
          have h1 := hall c
          simp [cnt] at h1 ⊢
          omega
        · have h1 := hall c
          have hac : ¬ a = c := fun hh => hca hh.symm
          simp [cnt, hac, hca] at h1 ⊢
          exact h1
      · intro hall c
        by_cases hca : c = a
        · subst hca
          have h1 := hall c
          simp [cnt] at h1 ⊢
          omega
        · have h1 := hall c
          have hac : ¬ a = c := fun hh => hca hh.symm
          simp [cnt, hac, hca] at h1 ⊢
          exact h1

theorem canMake_iff (w ls : List Char) :
    canMake w ls = true ↔ ∀ c, cnt c w ≤ cnt c ls :=
  canMakeGo_iff w _

theorem canFormFromLetters_iff (w : String) (ls : List Char) :
    canFormFromLetters w ls = true ↔
      ∀ c, cnt c (w.data.map Char.toLower) ≤ cnt c (ls.map Char.toLower) := by
  unfold canFormFromLetters
  rw [List.all_eq_true]
  constructor
  · intro hall c
    by_cases hc : c ∈ w.data.map Char.toLower
    · exact of_decide_eq_true (hall c hc)
    · rw [cnt_of_not_mem c _ hc]
      exact Nat.zero_le _
  · intro hall c _
    exact decide_eq_true (hall c)

theorem map_toLower_of_fixed (l : List Char) (h : ∀ c ∈ l, Char.toLower c = c) :
    l.map Char.toLower = l := by
  induction l with
  | nil => rfl
  | cons a t ih =>
    have h1 := h a (List.mem_cons_self a t)
    rw [List.map_cons, h1, ih (fun c hc => h c (List.mem_cons_of_mem a hc))]

theorem bool_eq_of_iff {a b : Bool} (h : a = true ↔ b = true) : a = b := by
  cases a <;> cases b <;> simp_all

/-- Claim C3 (amended): the feasibility check, as `isWordValid` uses it,
lowercases only the letters and not the word, so it agrees with the
case-insensitive multiset test of the spec exactly on words whose
characters are fixed by lowercasing (in particular all-lowercase words);
both cited examples hold. -/
theorem c3_feasibility_amended :
    (∀ (word : String) (letters : List Char),
      (∀ c ∈ word.data, Char.toLower c = c) →
        letterFeasible word letters = canFormFromLetters word letters) ∧
    canFormFromLetters "aab" ['a', 'a', 'b'] = true ∧
    canFormFromLetters "aaa" ['a', 'a', 'b'] = false ∧
    letterFeasible "aab" ['a', 'a', 'b'] = true ∧
    letterFeasible "aaa" ['a', 'a', 'b'] = false := by
  refine ⟨?_, by decide, by decide, by decide, by decide⟩
  intro word letters h
  apply bool_eq_of_iff
  unfold letterFeasible
  rw [canMake_iff, canFormFromLetters_iff, map_toLower_of_fixed word.data h]

/-- Claim C3 counterexample: the word is not lowercased by the check, so
for the uppercase word "A" with letters ["A"] the case-insensitive
multiset test of the spec says true while the code check says false. -/
theorem c3_feasibility_counterexample :
    canFormFromLetters "A" ['A'] = true ∧ letterFeasible "A" ['A'] = false := by
  decide

theorem c3_feasibility_witness :
    letterFeasible "ab" ['B', 'A'] = canFormFromLetters "ab" ['B', 'A'] :=
  c3_feasibility_amended.1 "ab" ['B', 'A'] (by decide)

/-- Claim C6 (amended): with an empty dictionary the feasibility count is
the hard-coded non-zero sentinel 5, whatever the candidate letters are. -/
theorem c6_empty_dict_sentinel :
    (∀ letters : List Char, countDictionaryMatches [] letters = 5) ∧ (5 : Nat) ≠ 0 :=
  ⟨fun _ => rfl, by decide⟩

/-- Claim C6 counterexample: on an empty dictionary the count is the same
fixed non-zero value for different candidate letter lists, so it does not
depend on the letters. -/
theorem c6_counterexample :
    countDictionaryMatches [] ['A'] = 5 ∧
    countDictionaryMatches [] [] = 5 ∧ (5 : Nat) ≠ 0 := by
  decide

-- Helper lemmas for the letter-set generator.

theorem set_get_self : ∀ (l : List Char) (i : Nat) (a : Char),
    l.get? i = some a → l.set i a = l := by
  intro l
  induction l with
  | nil =>
    intro i a h
    cases h
  | cons b t ih =>
    intro i a h
    cases i with
    | zero =>
      simp only [List.get?] at h
      injection h with h
      simp [List.set, h]
    | succ n =>
      simp only [List.get?] at h
      simp [List.set, ih n a h]

theorem swapL_self (l : List Char) (i : Nat) (h : i < l.length) : swapL l i i = l := by
  obtain ⟨a, ha⟩ : ∃ a, l.get? i = some a := by
    cases hg : l.get? i with
    | some a => exact ⟨a, rfl⟩
    | none =>
      rw [List.get?_eq_none] at hg
      omega
  simp only [swapL, ha]
  rw [List.set_set]
  exact set_get_self l i a ha

theorem shuffleGo_id (js : Nat → Nat) (hjs : ∀ i, js i = i) :
    ∀ (k : Nat) (l : List Char), k < l.length → shuffleGo js l k = l := by
  intro k
  induction k with
  | zero =>
    intro l _
    rfl
  | succ n ih =>
    intro l h
    show shuffleGo js (swapL l (n+1) (js (n+1) % (n+2))) n = l
    rw [hjs, Nat.mod_eq_of_lt (by omega), swapL_self l (n+1) h]
    exact ih l (by omega)

theorem shuffleArray_id (js : Nat → Nat) (hjs : ∀ i, js i = i) (l : List Char) :
    shuffleArray js l = l := by
  cases l with
  | nil => rfl
  | cons a t =>
    show shuffleGo js (a :: t) ((a :: t).length - 1) = a :: t
    apply shuffleGo_id js hjs
    simp

theorem pickGo_stuck (dict : List String) (size n : Nat) (arr : List Char)
    (hcount : ¬ n ≤ countDictionaryMatches dict (arr.take size)) :
    ∀ (fuel attempt : Nat), attempt ≠ 0 →
      pickGo dict size n rand0 attempt fuel arr = arr.take size := by
  intro fuel
  induction fuel with
  | zero =>
    intro attempt _
    rfl
  | succ m ih =>
    intro attempt ha
    have hsh : shuffleArray (rand0 attempt) arr = arr := by
      apply shuffleArray_id
      intro i
      simp [rand0, ha]
    show (if n ≤ countDictionaryMatches dict ((shuffleArray (rand0 attempt) arr).take size) then
        (shuffleArray (rand0 attempt) arr).take size
      else pickGo dict size n rand0 (attempt+1) m (shuffleArray (rand0 attempt) arr)) = arr.take size
    rw [hsh, if_neg hcount]
    exact ih (attempt+1) (Nat.succ_ne_zero _)

/-- Claim C4 (code bug): with the dictionary containing only "zz" no
candidate ever forms 3 words, the 10000 attempts are exhausted, and the
fallback returns the first 20 letters of the alphabet array as mutated in
place by the shuffles — a shuffled slice, not the deterministic first 20
letters of the alphabet. -/
theorem c4_fallback_shuffled :
    pickLettersWithAtLeastNWords ["zz"] 20 3 rand0 = alpha1.take 20 ∧
    alpha1.take 20 ≠ alphaList.take 20 := by
  constructor
  · have h0 : countDictionaryMatches ["zz"] (alpha1.take 20) = 0 := by decide
    show pickGo ["zz"] 20 3 rand0 0 10000 alphaList = alpha1.take 20
    show (if 3 ≤ countDictionaryMatches ["zz"] ((shuffleArray (rand0 0) alphaList).take 20) then
        (shuffleArray (rand0 0) alphaList).take 20
      else pickGo ["zz"] 20 3 rand0 1 9999 (shuffleArray (rand0 0) alphaList)) = alpha1.take 20
    rw [show shuffleArray (rand0 0) alphaList = alpha1 from rfl]
    rw [if_neg (by rw [h0]; omega)]
    exact pickGo_stuck ["zz"] 20 3 alpha1 (by rw [h0]; omega) 9999 1 one_ne_zero
  · decide

/-- One `{word, by}` entry of `foundWords` (`by` is a Lean keyword, so
the field is called `byPlayer`). -/
structure FoundWord where
  word : String
  byPlayer : Nat
deriving DecidableEq

/-- The per-room game state created by `initGameState`.  The JS `Set`
`foundWordsSet` is modelled as a list in insertion order. -/
structure GameState where
  mode : String
  letters : List Char
  turn : Nat
  p1Score : Nat
  p2Score : Nat
  foundWords : List FoundWord
  foundWordsSet : List String
deriving DecidableEq

/-- `Set.add`: insert at the end if absent. -/
def setAdd (s : List String) (w : String) : List String :=
  if s.contains w then s else s ++ [w]

/-- Result of the submit-word handler on a present state. -/
inductive SubmitResult where
  | ignored
  | rejected (reason : String)
  | accepted (st : GameState)
deriving DecidableEq

/-- The state transition of the `submit-word` handler: the falsy-word
guard, duplicate rejection, validity rejection, then the accepting update
of words, set, score and turn. -/
def submit (dict : List String) (st : GameState) (word : String) (playerIndex : Nat) :
    SubmitResult :=
  if word = "" then .ignored
  else if st.foundWordsSet.contains word then .rejected "already-found"
  else if isWordValid dict word st.letters = false then .rejected "invalid-word"
  else .accepted { st with
    foundWords := st.foundWords ++ [⟨word, playerIndex⟩]
    foundWordsSet := setAdd st.foundWordsSet word
    p1Score := if playerIndex = 1 then st.p1Score + word.length else st.p1Score
    p2Score := if playerIndex = 1 then st.p2Score else st.p2Score + word.length
    turn := if playerIndex = 1 then 2 else 1 }

/-- Run a list of `(word, playerIndex)` submissions, requiring every one
of them to be accepted. -/
def acceptedRun (dict : List String) (st : GameState) : List (String × Nat) → Option GameState
  | [] => some st
  | m :: rest =>
    match submit dict st m.1 m.2 with
    | .accepted st1 => acceptedRun dict st1 rest
    | _ => none

/-- The last element of a move list. -/
def lastMove : List (String × Nat) → Option (String × Nat)
  | [] => none
  | [m] => some m
  | _ :: m2 :: rest => lastMove (m2 :: rest)

/-- Total length of the words of a `foundWords` list. -/
def sumLen (l : List FoundWord) : Nat := (l.map fun fw => fw.word.length).sum

/-- The score bookkeeping the accepting branch maintains: `p1Score` sums
the entries credited with index 1, `p2Score` sums all the others. -/
def ScoreInv (st : GameState) : Prop :=
  st.p1Score = sumLen (st.foundWords.filter fun fw => decide (fw.byPlayer = 1)) ∧
  st.p2Score = sumLen (st.foundWords.filter fun fw => decide (¬ fw.byPlayer = 1))

theorem submit_accepted {dict : List String} {st : GameState} {w : String} {pi : Nat}
    {stF : GameState} (h : submit dict st w pi = SubmitResult.accepted stF) :
    stF = { st with
      foundWords := st.foundWords ++ [⟨w, pi⟩]
      foundWordsSet := setAdd st.foundWordsSet w
      p1Score := if pi = 1 then st.p1Score + w.length else st.p1Score
      p2Score := if pi = 1 then st.p2Score else st.p2Score + w.length
      turn := if pi = 1 then 2 else 1 } := by
  unfold submit at h
  split at h
  · exact absurd h (by simp)
  split at h
  · exact absurd h (by simp)
  split at h
  · exact absurd h (by simp)
  rw [SubmitResult.accepted.injEq] at h
  exact h.symm

theorem lastMove_ne_none : ∀ (l : List (String × Nat)) (m : String × Nat),
    ∃ m2, lastMove (m :: l) = some m2 := by
  intro l
  induction l with
  | nil =>
    intro m
    exact ⟨m, rfl⟩
  | cons b t ih =>
    intro m
    obtain ⟨m2, hm2⟩ := ih b
    exact ⟨m2, hm2⟩

theorem acceptedRun_turn (dict : List String) :
    ∀ (moves : List (String × Nat)) (st stF : GameState),
      acceptedRun dict st moves = some stF →
      stF.turn = (match lastMove moves with
        | none => st.turn
        | some m => if m.2 = 1 then 2 else 1) := by
  intro moves
  induction moves with
  | nil =>
    intro st stF h
    simp only [acceptedRun, Option.some.injEq] at h
    subst h
    rfl
  | cons m ms ih =>
    intro st stF h
    simp only [acceptedRun] at h
    cases hsub : submit dict st m.1 m.2 with
    | ignored =>
      rw [hsub] at h
      simp at h
    | rejected r =>
      rw [hsub] at h
      simp at h
    | accepted st1 =>
      rw [hsub] at h
      cases ms with
      | nil =>
        simp only [acceptedRun, Option.some.injEq] at h
        subst h
        rw [submit_accepted hsub]
        rfl
      | cons m2 ms2 =>
        have hres := ih st1 stF h
        obtain ⟨mL, hmL⟩ := lastMove_ne_none ms2 m2
        rw [hmL] at hres
        rw [show lastMove (m :: m2 :: ms2) = lastMove (m2 :: ms2) from rfl, hmL]
        exact hres

/-- Claim C1 (amended): after an accepted run from a `turn = 1` state the
turn is 1 for the empty run and otherwise 2 exactly when the LAST move
was submitted with playerIndex 1 — the code sets `turn` from the
submitted player index, so the final turn is determined by the last
submitter, not by the parity of the number of moves. -/
theorem c1_turn_amended (dict : List String) (st stF : GameState)
    (moves : List (String × Nat))
    (hrun : acceptedRun dict st moves = some stF) (hturn : st.turn = 1) :
    stF.turn = (match lastMove moves with
      | none => 1
      | some m => if m.2 = 1 then 2 else 1) := by
  have h := acceptedRun_turn dict moves st stF hrun
  cases hl : lastMove moves with
  | none =>
    rw [hl] at h
    exact h.trans hturn
  | some m =>
    rw [hl] at h
    exact h

/-- A fresh versus-mode game state over the letters A, B (turn 1, empty
scores and word lists), used as concrete input below. -/
def stDemo : GameState :=
  { mode := "versus", letters := ['A', 'B'], turn := 1, p1Score := 0, p2Score := 0,
    foundWords := [], foundWordsSet := [] }

/-- The state `stDemo` becomes after player 1 submits "ab". -/
def stDemoAfter : GameState :=
  { mode := "versus", letters := ['A', 'B'], turn := 2, p1Score := 2, p2Score := 0,
    foundWords := [⟨"ab", 1⟩], foundWordsSet := ["ab"] }

/-- Claim C1 counterexample: a single accepted move (N = 1, odd)
submitted by player 2 from a turn-1 state leaves `turn = 1`, where the
claim predicts 2. -/
theorem c1_turn_counterexample :
    stDemo.turn = 1 ∧
    (acceptedRun [] stDemo [("ab", 2)]).map GameState.turn = some 1 ∧
    ¬ (acceptedRun [] stDemo [("ab", 2)]).map GameState.turn = some 2 ∧
    [("ab", 2)].length % 2 = 1 := by
  decide

theorem c1_turn_witness :
    acceptedRun [] stDemo [("ab", 1)] = some stDemoAfter ∧
    stDemoAfter.turn = (match lastMove [("ab", 1)] with
      | none => 1
      | some m => if m.2 = 1 then 2 else 1) :=
  ⟨by decide, c1_turn_amended [] stDemo stDemoAfter [("ab", 1)] (by decide) rfl⟩

-- Score bookkeeping (claim C2).

theorem sumLen_append (a b : List FoundWord) : sumLen (a ++ b) = sumLen a + sumLen b := by
  simp [sumLen]

theorem submit_scoreInv {dict : List String} {st : GameState} {w : String} {pi : Nat}
    {stF : GameState} (h : submit dict st w pi = SubmitResult.accepted stF)
    (hinv : ScoreInv st) : ScoreInv stF := by
  obtain ⟨h1, h2⟩ := hinv
  rw [submit_accepted h]
  unfold ScoreInv
  constructor
  · show (if pi = 1 then st.p1Score + w.length else st.p1Score)
        = sumLen ((st.foundWords ++ [FoundWord.mk w pi]).filter fun fw => decide (fw.byPlayer = 1))
    rw [List.filter_append, sumLen_append, ← h1]
    by_cases hpi : pi = 1
    · rw [if_pos hpi]
      simp [List.filter_cons, hpi, sumLen]
    · rw [if_neg hpi]
      simp [List.filter_cons, hpi, sumLen]
  · show (if pi = 1 then st.p2Score else st.p2Score + w.length)
        = sumLen ((st.foundWords ++ [FoundWord.mk w pi]).filter fun fw => decide (¬ fw.byPlayer = 1))
    rw [List.filter_append, sumLen_append, ← h2]
    by_cases hpi : pi = 1
    · rw [if_pos hpi]
      simp [List.filter_cons, hpi, sumLen]
    · rw [if_neg hpi]
      simp [List.filter_cons, hpi, sumLen]

theorem acceptedRun_scoreInv (dict : List String) :
    ∀ (moves : List (String × Nat)) (st stF : GameState),
      ScoreInv st → acceptedRun dict st moves = some stF → ScoreInv stF := by
  intro moves
  induction moves with
  | nil =>
    intro st stF hinv h
    simp only [acceptedRun, Option.some.injEq] at h
    exact h ▸ hinv
  | cons m ms ih =>
    intro st stF hinv h
    simp only [acceptedRun] at h
    cases hsub : submit dict st m.1 m.2 with
    | ignored =>
      rw [hsub] at h
      simp at h
    | rejected r =>
      rw [hsub] at h
      simp at h
    | accepted st1 =>
      rw [hsub] at h
      exact ih st1 stF (submit_scoreInv hsub hinv) h

theorem filter_byTwo : ∀ (l : List FoundWord),
    (∀ fw ∈ l, fw.byPlayer = 1 ∨ fw.byPlayer = 2) →
    (l.filter fun fw => decide (¬ fw.byPlayer = 1)) =
      l.filter fun fw => decide (fw.byPlayer = 2) := by
  intro l
  induction l with
  | nil =>
    intro _
    rfl
  | cons a t ih =>
    intro h
    have ha := h a (List.mem_cons_self a t)
    have ht := ih fun fw hf => h fw (List.mem_cons_of_mem a hf)
    rcases ha with h1 | h2
    · simp [List.filter_cons, h1]
      simpa using ht
    · simp [List.filter_cons, h2]
      simpa using ht

/-- Claim C2 (amended): after any accepted run from a fresh state,
`p1Score` sums the lengths of the entries with `by = 1` and `p2Score`
sums the lengths of ALL other entries (the handler credits every
playerIndex other than 1 to player 2); the stated `by = 2` form holds
exactly when every accepted move used playerIndex 1 or 2. -/
theorem c2_score_amended (dict : List String) (st stF : GameState)
    (moves : List (String × Nat))
    (h1 : st.p1Score = 0) (h2 : st.p2Score = 0) (hf : st.foundWords = [])
    (hrun : acceptedRun dict st moves = some stF) :
    stF.p1Score = sumLen (stF.foundWords.filter fun fw => decide (fw.byPlayer = 1)) ∧
    stF.p2Score = sumLen (stF.foundWords.filter fun fw => decide (¬ fw.byPlayer = 1)) ∧
    ((∀ fw ∈ stF.foundWords, fw.byPlayer = 1 ∨ fw.byPlayer = 2) →
      stF.p2Score = sumLen (stF.foundWords.filter fun fw => decide (fw.byPlayer = 2))) := by
  have hinv : ScoreInv st := by
    constructor <;> simp [hf, h1, h2, sumLen]
  have hres := acceptedRun_scoreInv dict moves st stF hinv hrun
  exact ⟨hres.1, hres.2, fun hh => by rw [hres.2, filter_byTwo _ hh]⟩

/-- Claim C2 counterexample: one accepted move with the unvalidated
playerIndex 3 is credited to `p2Score`, while no `foundWords` entry has
`by = 2`, so `p2Score` differs from the sum over `by = 2`. -/
theorem c2_score_counterexample :
    (acceptedRun [] stDemo [("ab", 3)]).map (fun s => s.p2Score) = some 2 ∧
    (acceptedRun [] stDemo [("ab", 3)]).map
        (fun s => sumLen (s.foundWords.filter fun fw => decide (fw.byPlayer = 2))) = some 0 ∧
    (2 : Nat) ≠ 0 := by
  decide

/-- The state `stDemo` becomes after player 2 submits "ab". -/
def stDemoAfter2 : GameState :=
  { mode := "versus", letters := ['A', 'B'], turn := 1, p1Score := 0, p2Score := 2,
    foundWords := [⟨"ab", 2⟩], foundWordsSet := ["ab"] }

theorem c2_score_witness :
    acceptedRun [] stDemo [("ab", 2)] = some stDemoAfter2 ∧
    (stDemoAfter2.p1Score
        = sumLen (stDemoAfter2.foundWords.filter fun fw => decide (fw.byPlayer = 1)) ∧
      stDemoAfter2.p2Score
        = sumLen (stDemoAfter2.foundWords.filter fun fw => decide (¬ fw.byPlayer = 1)) ∧
      ((∀ fw ∈ stDemoAfter2.foundWords, fw.byPlayer = 1 ∨ fw.byPlayer = 2) →
        stDemoAfter2.p2Score
          = sumLen (stDemoAfter2.foundWords.filter fun fw => decide (fw.byPlayer = 2)))) :=
  ⟨by decide, c2_score_amended [] stDemo stDemoAfter2 [("ab", 2)] rfl rfl rfl (by decide)⟩

/-- A room: the ordered player list and the optional game state. -/
structure Room where
  players : List Nat
  state : Option GameState
deriving DecidableEq

/-- The whole server state: the `rooms` map (an association list in
`Map` insertion order), the `waiting` queue, and the `ws.roomId` field
of every connection (connections are identified by naturals). -/
structure Sys where
  rooms : List (Nat × Room)
  waiting : List Nat
  connRoom : Nat → Option Nat

/-- `rooms.get(k)`. -/
def lookupR : List (Nat × Room) → Nat → Option Room
  | [], _ => none
  | p :: rest, k => if p.1 = k then some p.2 else lookupR rest k

/-- `rooms.set(k, v)`: replace in place, or append if the key is new. -/
def setR : List (Nat × Room) → Nat → Room → List (Nat × Room)
  | [], k, v => [(k, v)]
  | p :: rest, k, v => if p.1 = k then (k, v) :: rest else p :: setR rest k v

/-- `rooms.delete(k)`. -/
def delR (rs : List (Nat × Room)) (k : Nat) : List (Nat × Room) :=
  rs.filter fun p => decide (p.1 ≠ k)

/-- Point update of the `ws.roomId` assignment. -/
def updConn (f : Nat → Option Nat) (c : Nat) (v : Option Nat) : Nat → Option Nat :=
  fun x => if x = c then v else f x

/-- Outbound messages of the handlers. -/
inductive Msg where
  | roomCreated (dest : Nat) (roomId : Nat)
  | errorMsg (dest : Nat) (message : String)
  | roomJoined (dest : Nat) (roomId : Nat) (playerIndex : Nat) (state : GameState)
  | matched (dest : Nat) (roomId : Nat) (playerIndex : Nat) (state : GameState)
  | waitingMsg (dest : Nat)
  | gameStart (dest : Nat) (playerIndex : Nat) (state : GameState)
  | moveRejected (dest : Nat) (reason : String)
  | stateUpdate (dest : Nat) (state : Option GameState)
  | peerLeft (dest : Nat)
deriving DecidableEq

/-- Inbound events; freshly generated room ids and the random sources
feeding `initGameState` are explicit inputs. -/
inductive Event where
  | createRoom (ws : Nat) (newId : Nat)
  | joinRoom (ws : Nat) (roomId : Nat) (mode : Option String) (rand : Rand)
  | quickMatch (ws : Nat) (newId : Nat) (mode : Option String) (rand : Rand)
  | startGame (ws : Nat) (mode : Option String) (rand : Rand)
  | submitWord (ws : Nat) (word : String) (playerIndex : Nat)
  | closeConn (ws : Nat)
  | getState (ws : Nat)

/-- `initGameState(mode)` from server.js: pool size 5/10/20 by mode,
letters from the generator with a minimum of 3 words, fresh state. -/
def initGameState (mode : String) (dict : List String) (rand : Rand) : GameState :=
  { mode := mode
    letters := pickLettersWithAtLeastNWords dict
      (if mode = "basic" then 5 else if mode = "terrible" then 10 else 20) 3 rand
    turn := 1
    p1Score := 0
    p2Score := 0
    foundWords := []
    foundWordsSet := [] }

/-- The event dispatch of server.js (the message handlers and the close
handler), one event at a time, returning the next system state and the
list of messages sent. -/
def step (dict : List String) (S : Sys) : Event → Sys × List Msg
  | .createRoom ws newId =>
    ({ rooms := setR S.rooms newId ⟨[ws], none⟩
       waiting := S.waiting
       connRoom := updConn S.connRoom ws (some newId) },
     [.roomCreated ws newId])
  | .joinRoom ws roomId mode rand =>
    match lookupR S.rooms roomId with
    | none => (S, [.errorMsg ws "Room not found"])
    | some room =>
      if 2 ≤ room.players.length then (S, [.errorMsg ws "Room full"])
      else
        ({ rooms := setR S.rooms roomId
             ⟨room.players ++ [ws], some (initGameState (mode.getD "versus") dict rand)⟩
           waiting := S.waiting
           connRoom := updConn S.connRoom ws (some roomId) },
         (room.players ++ [ws]).enum.map fun p =>
           .roomJoined p.2 roomId (p.1 + 1) (initGameState (mode.getD "versus") dict rand))
  | .quickMatch ws newId mode rand =>
    match S.waiting with
    | peer :: rest =>
      ({ rooms := setR S.rooms newId
           ⟨[peer, ws], some (initGameState (mode.getD "versus") dict rand)⟩
         waiting := rest
         connRoom := updConn (updConn S.connRoom peer (some newId)) ws (some newId) },
       [.matched peer newId 1 (initGameState (mode.getD "versus") dict rand),
        .matched ws newId 2 (initGameState (mode.getD "versus") dict rand)])
    | [] =>
      ({ rooms := S.rooms
         waiting := S.waiting ++ [ws]
         connRoom := S.connRoom },
       [.waitingMsg ws])
  | .startGame ws mode rand =>
    match S.connRoom ws with
    | none => (S, [])
    | some rid =>
      match lookupR S.rooms rid with
      | none => (S, [])
      | some room =>
        match room.state with
        | some st => (S, room.players.enum.map fun p => .gameStart p.2 (p.1 + 1) st)
        | none =>
          ({ rooms := setR S.rooms rid
               ⟨room.players, some (initGameState (mode.getD "versus") dict rand)⟩
             waiting := S.waiting
             connRoom := S.connRoom },
           room.players.enum.map fun p =>
             .gameStart p.2 (p.1 + 1) (initGameState (mode.getD "versus") dict rand))
  | .submitWord ws word playerIndex =>
    match S.connRoom ws with
    | none => (S, [])
    | some rid =>
      match lookupR S.rooms rid with
      | none => (S, [])
      | some room =>
        match room.state with
        | none => (S, [])
        | some st =>
          match submit dict st word playerIndex with
          | .ignored => (S, [])
          | .rejected reason => (S, [.moveRejected ws reason])
          | .accepted st1 =>
            ({ rooms := setR S.rooms rid ⟨room.players, some st1⟩
               waiting := S.waiting
               connRoom := S.connRoom },
             room.players.map fun p => .stateUpdate p (some st1))
  | .closeConn ws =>
    match S.connRoom ws with
    | some rid =>
      match lookupR S.rooms rid with
      | some room =>
        ({ rooms := delR S.rooms rid
           waiting := S.waiting
           connRoom := S.connRoom },
         (room.players.filter fun p => decide (p ≠ ws)).map fun p => Msg.peerLeft p)
      | none =>
        ({ rooms := S.rooms, waiting := S.waiting.erase ws, connRoom := S.connRoom }, [])
    | none =>
      ({ rooms := S.rooms, waiting := S.waiting.erase ws, connRoom := S.connRoom }, [])
  | .getState ws =>
    match S.connRoom ws with
    | none => (S, [])
    | some rid =>
      match lookupR S.rooms rid with
      | none => (S, [])
      | some room => (S, [.stateUpdate ws room.state])

/-- Apply a list of events from a state, discarding the messages. -/
def applyEvents (dict : List String) (S : Sys) : List Event → Sys
  | [] => S
  | e :: rest => applyEvents dict (step dict S e).1 rest

/-- The initial server state: no rooms, empty queue, no assignments. -/
def sysInit : Sys := { rooms := [], waiting := [], connRoom := fun _ => none }

/-- Whether some room entry of the registry lists the connection among
its players. -/
def inRoomB (S : Sys) (c : Nat) : Bool :=
  decide (∃ p ∈ S.rooms, c ∈ p.2.players)

-- Lemmas about the room registry.

theorem mem_setR : ∀ {rs : List (Nat × Room)} {k : Nat} {v : Room} {q : Nat × Room},
    q ∈ setR rs k v → q ∈ rs ∨ q = (k, v) := by
  intro rs
  induction rs with
  | nil =>
    intro k v q h
    simp only [setR, List.mem_singleton] at h
    exact Or.inr h
  | cons p rest ih =>
    intro k v q h
    simp only [setR] at h
    by_cases hk : p.1 = k
    · rw [if_pos hk] at h
      rcases List.mem_cons.mp h with h1 | h1
      · exact Or.inr h1
      · exact Or.inl (List.mem_cons_of_mem p h1)
    · rw [if_neg hk] at h
      rcases List.mem_cons.mp h with h1 | h1
      · exact Or.inl (h1 ▸ List.mem_cons_self p rest)
      · rcases ih h1 with h2 | h2
        · exact Or.inl (List.mem_cons_of_mem p h2)
        · exact Or.inr h2

theorem lookupR_mem : ∀ {rs : List (Nat × Room)} {k : Nat} {r : Room},
    lookupR rs k = some r → (k, r) ∈ rs := by
  intro rs
  induction rs with
  | nil =>
    intro k r h
    simp [lookupR] at h
  | cons p rest ih =>
    intro k r h
    simp only [lookupR] at h
    by_cases hk : p.1 = k
    · rw [if_pos hk] at h
      injection h with h
      have hp : (k, r) = p := by
        rw [← hk, ← h]
      rw [hp]
      exact List.mem_cons_self p rest
    · rw [if_neg hk] at h
      exact List.mem_cons_of_mem p (ih h)

theorem setR_append {rs : List (Nat × Room)} {k : Nat} (v : Room)
    (h : lookupR rs k = none) : setR rs k v = rs ++ [(k, v)] := by
  induction rs with
  | nil => rfl
  | cons p rest ih =>
    simp only [lookupR] at h
    by_cases hk : p.1 = k
    · rw [if_pos hk] at h
      cases h
    · rw [if_neg hk] at h
      simp only [setR]
      rw [if_neg hk, ih h]
      rfl

theorem lookupR_setR_self (rs : List (Nat × Room)) (k : Nat) (v : Room) :
    lookupR (setR rs k v) k = some v := by
  induction rs with
  | nil => simp [setR, lookupR]
  | cons p rest ih =>
    simp only [setR]
    by_cases hk : p.1 = k
    · rw [if_pos hk]
      simp [lookupR]
    · rw [if_neg hk]
      simp only [lookupR]
      rw [if_neg hk]
      exact ih

theorem lookupR_setR_ne (rs : List (Nat × Room)) (k k2 : Nat) (v : Room) (h : k2 ≠ k) :
    lookupR (setR rs k v) k2 = lookupR rs k2 := by
  induction rs with
  | nil =>
    simp only [setR, lookupR]
    rw [if_neg (fun hh => h hh.symm)]
  | cons p rest ih =>
    simp only [setR]
    by_cases hk : p.1 = k
    · rw [if_pos hk]
      simp only [lookupR]
      rw [if_neg (fun hh => h hh.symm), if_neg (by rw [hk]; exact fun hh => h hh.symm)]
    · rw [if_neg hk]
      simp only [lookupR]
      by_cases hk2 : p.1 = k2
      · rw [if_pos hk2, if_pos hk2]
      · rw [if_neg hk2, if_neg hk2]
        exact ih

/-- Claim C8: a join-room event on a room that already holds 2 players
replies with the "Room full" error to the joiner and leaves the whole
system state (player list and game state included) unchanged. -/
theorem c8_room_full (dict : List String) (S : Sys) (ws rid : Nat)
    (mode : Option String) (rand : Rand) (room : Room)
    (h : lookupR S.rooms rid = some room) (hfull : 2 ≤ room.players.length) :
    step dict S (Event.joinRoom ws rid mode rand) = (S, [Msg.errorMsg ws "Room full"]) := by
  simp only [step, h]
  rw [if_pos hfull]

/-- A one-player room whose game already has a nonzero score, used as a
concrete input below. -/
def stOld : GameState :=
  { mode := "versus", letters := ['A'], turn := 1, p1Score := 5, p2Score := 0,
    foundWords := [], foundWordsSet := [] }

/-- A registry holding room 7 with the single player 1 and the state
`stOld`. -/
def sysDemo : Sys :=
  { rooms := [(7, ⟨[1], some stOld⟩)], waiting := [],
    connRoom := fun c => if c = 1 then some 7 else none }

/-- A registry holding the full room 4 with players 1 and 2. -/
def sysFull : Sys :=
  { rooms := [(4, ⟨[1, 2], none⟩)], waiting := [],
    connRoom := fun c => if c = 1 ∨ c = 2 then some 4 else none }

theorem c8_room_full_witness :
    step [] sysFull (Event.joinRoom 3 4 none idRand)
      = (sysFull, [Msg.errorMsg 3 "Room full"]) :=
  c8_room_full [] sysFull 3 4 none idRand ⟨[1, 2], none⟩ (by decide) (by decide)

/-- Claim C5 (amended): a join-room event on a room with fewer than two
players appends the joiner to the player list and ALWAYS installs a
freshly generated GameState, overwriting any state already present
(for example one created earlier by start-game); the queue and all other
rooms are untouched and both players get the room-joined message. -/
theorem c5_join_overwrites (dict : List String) (S : Sys) (ws rid : Nat)
    (mode : Option String) (rand : Rand) (room : Room)
    (h : lookupR S.rooms rid = some room) (hlen : room.players.length < 2) :
    (step dict S (Event.joinRoom ws rid mode rand)).1.rooms
        = setR S.rooms rid
            ⟨room.players ++ [ws], some (initGameState (mode.getD "versus") dict rand)⟩ ∧
    lookupR (step dict S (Event.joinRoom ws rid mode rand)).1.rooms rid
        = some ⟨room.players ++ [ws], some (initGameState (mode.getD "versus") dict rand)⟩ ∧
    (∀ k, k ≠ rid → lookupR (step dict S (Event.joinRoom ws rid mode rand)).1.rooms k
        = lookupR S.rooms k) ∧
    (step dict S (Event.joinRoom ws rid mode rand)).1.waiting = S.waiting ∧
    (step dict S (Event.joinRoom ws rid mode rand)).1.connRoom ws = some rid ∧
    (step dict S (Event.joinRoom ws rid mode rand)).2
        = (room.players ++ [ws]).enum.map (fun p =>
            Msg.roomJoined p.2 rid (p.1 + 1) (initGameState (mode.getD "versus") dict rand)) := by
  simp only [step, h]
  rw [if_neg (by omega)]
  refine ⟨rfl, lookupR_setR_self _ _ _, fun k hk => lookupR_setR_ne _ _ _ _ hk, rfl, ?_, rfl⟩
  simp [updConn]

/-- Claim C5 counterexample: joining room 7 of `sysDemo`, whose game
state has `p1Score = 5`, replaces that state with a fresh one whose
`p1Score` is 0 — the existing GameState is NOT left unchanged. -/
theorem c5_join_counterexample :
    ((lookupR (step [] sysDemo (Event.joinRoom 2 7 none idRand)).1.rooms 7).bind
        Room.state).map GameState.p1Score = some 0 ∧
    stOld.p1Score = 5 ∧ (0 : Nat) ≠ 5 := by
  decide

theorem c5_join_witness :
    (step [] sysDemo (Event.joinRoom 2 7 none idRand)).1.rooms
        = setR sysDemo.rooms 7
            ⟨[1, 2], some (initGameState "versus" [] idRand)⟩ ∧
    lookupR (step [] sysDemo (Event.joinRoom 2 7 none idRand)).1.rooms 7
        = some ⟨[1, 2], some (initGameState "versus" [] idRand)⟩ ∧
    lookupR (step [] sysDemo (Event.joinRoom 2 7 none idRand)).1.rooms 3
        = lookupR sysDemo.rooms 3 ∧
    (step [] sysDemo (Event.joinRoom 2 7 none idRand)).1.waiting = sysDemo.waiting ∧
    (step [] sysDemo (Event.joinRoom 2 7 none idRand)).1.connRoom 2 = some 7 ∧
    (step [] sysDemo (Event.joinRoom 2 7 none idRand)).2
        = ([1, 2] : List Nat).enum.map (fun p =>
            Msg.roomJoined p.2 7 (p.1 + 1) (initGameState "versus" [] idRand)) :=
  have h := c5_join_overwrites [] sysDemo 2 7 none idRand ⟨[1], some stOld⟩
    (by decide) (by decide)
  ⟨h.1, h.2.1, h.2.2.1 3 (by decide), h.2.2.2.1, h.2.2.2.2.1, h.2.2.2.2.2⟩

/-- Claim C9: from an empty waiting queue, quick-match from A enqueues A
(with a waiting reply), and a following quick-match from a distinct B
creates exactly one new room with players [A, B] and a freshly generated
state, sends the matched replies with indices 1 (to A) and 2 (to B), and
leaves the waiting queue empty. -/
theorem c9_quick_pair (dict : List String) (S : Sys) (A B newIdA newIdB : Nat)
    (mA mB : Option String) (rA rB : Rand)
    (hw : S.waiting = []) (hAB : A ≠ B) (hfresh : lookupR S.rooms newIdB = none) :
    (step dict S (Event.quickMatch A newIdA mA rA)).2 = [Msg.waitingMsg A] ∧
    (step dict S (Event.quickMatch A newIdA mA rA)).1.waiting = [A] ∧
    (step dict S (Event.quickMatch A newIdA mA rA)).1.rooms = S.rooms ∧
    (step dict ((step dict S (Event.quickMatch A newIdA mA rA)).1)
        (Event.quickMatch B newIdB mB rB)).1.rooms
      = S.rooms ++ [(newIdB,
          ⟨[A, B], some (initGameState (mB.getD "versus") dict rB)⟩)] ∧
    (step dict ((step dict S (Event.quickMatch A newIdA mA rA)).1)
        (Event.quickMatch B newIdB mB rB)).1.waiting = [] ∧
    (step dict ((step dict S (Event.quickMatch A newIdA mA rA)).1)
        (Event.quickMatch B newIdB mB rB)).2
      = [Msg.matched A newIdB 1 (initGameState (mB.getD "versus") dict rB),
         Msg.matched B newIdB 2 (initGameState (mB.getD "versus") dict rB)] ∧
    (step dict ((step dict S (Event.quickMatch A newIdA mA rA)).1)
        (Event.quickMatch B newIdB mB rB)).1.connRoom A = some newIdB ∧
    (step dict ((step dict S (Event.quickMatch A newIdA mA rA)).1)
        (Event.quickMatch B newIdB mB rB)).1.connRoom B = some newIdB := by
  have h1 : step dict S (Event.quickMatch A newIdA mA rA)
      = ({ rooms := S.rooms, waiting := [A], connRoom := S.connRoom },
         [Msg.waitingMsg A]) := by
    simp only [step, hw, List.nil_append]
  rw [h1]
  refine ⟨rfl, rfl, rfl, ?_, rfl, rfl, ?_, ?_⟩
  · show setR S.rooms newIdB _ = _
    rw [setR_append _ hfresh]
  · simp [step, updConn, hAB]
  · simp [step, updConn]

theorem c9_quick_pair_witness :
    (step [] sysInit (Event.quickMatch 1 8 none idRand)).2 = [Msg.waitingMsg 1] ∧
    (step [] sysInit (Event.quickMatch 1 8 none idRand)).1.waiting = [1] ∧
    (step [] sysInit (Event.quickMatch 1 8 none idRand)).1.rooms = sysInit.rooms ∧
    (step [] ((step [] sysInit (Event.quickMatch 1 8 none idRand)).1)
        (Event.quickMatch 2 0 none idRand)).1.rooms
      = sysInit.rooms ++ [(0, ⟨[1, 2], some (initGameState "versus" [] idRand)⟩)] ∧
    (step [] ((step [] sysInit (Event.quickMatch 1 8 none idRand)).1)
        (Event.quickMatch 2 0 none idRand)).1.waiting = [] ∧
    (step [] ((step [] sysInit (Event.quickMatch 1 8 none idRand)).1)
        (Event.quickMatch 2 0 none idRand)).2
      = [Msg.matched 1 0 1 (initGameState "versus" [] idRand),
         Msg.matched 2 0 2 (initGameState "versus" [] idRand)] ∧
    (step [] ((step [] sysInit (Event.quickMatch 1 8 none idRand)).1)
        (Event.quickMatch 2 0 none idRand)).1.connRoom 1 = some 0 ∧
    (step [] ((step [] sysInit (Event.quickMatch 1 8 none idRand)).1)
        (Event.quickMatch 2 0 none idRand)).1.connRoom 2 = some 0 :=
  c9_quick_pair [] sysInit 1 2 8 0 none none idRand idRand rfl (by decide) rfl

/-- Claim C10: a quick-match event from the sole queued connection pairs
it with itself: the queue head (the sender) is dequeued, one new room is
created whose players 1 and 2 are both that connection, and the sender
receives the matched reply twice, once with player index 1 and once with
player index 2. -/
theorem c10_self_pair (dict : List String) (S : Sys) (ws newId : Nat)
    (mode : Option String) (rand : Rand)
    (hw : S.waiting = [ws]) (hfresh : lookupR S.rooms newId = none) :
    (step dict S (Event.quickMatch ws newId mode rand)).1.rooms
      = S.rooms ++ [(newId,
          ⟨[ws, ws], some (initGameState (mode.getD "versus") dict rand)⟩)] ∧
    (step dict S (Event.quickMatch ws newId mode rand)).1.waiting = [] ∧
    (step dict S (Event.quickMatch ws newId mode rand)).2
      = [Msg.matched ws newId 1 (initGameState (mode.getD "versus") dict rand),
         Msg.matched ws newId 2 (initGameState (mode.getD "versus") dict rand)] ∧
    (step dict S (Event.quickMatch ws newId mode rand)).1.connRoom ws = some newId := by
  have h1 : step dict S (Event.quickMatch ws newId mode rand)
      = ({ rooms := setR S.rooms newId
             ⟨[ws, ws], some (initGameState (mode.getD "versus") dict rand)⟩
           waiting := []
           connRoom := updConn (updConn S.connRoom ws (some newId)) ws (some newId) },
         [Msg.matched ws newId 1 (initGameState (mode.getD "versus") dict rand),
          Msg.matched ws newId 2 (initGameState (mode.getD "versus") dict rand)]) := by
    simp only [step, hw]
  rw [h1]
  refine ⟨?_, rfl, rfl, ?_⟩
  · show setR S.rooms newId _ = _
    rw [setR_append _ hfresh]
  · simp [updConn]

theorem c10_self_pair_witness :
    (step [] ((step [] sysInit (Event.quickMatch 7 8 none idRand)).1)
        (Event.quickMatch 7 9 none idRand)).1.rooms
      = ((step [] sysInit (Event.quickMatch 7 8 none idRand)).1).rooms
        ++ [(9, ⟨[7, 7], some (initGameState "versus" [] idRand)⟩)] ∧
    (step [] ((step [] sysInit (Event.quickMatch 7 8 none idRand)).1)
        (Event.quickMatch 7 9 none idRand)).1.waiting = [] ∧
    (step [] ((step [] sysInit (Event.quickMatch 7 8 none idRand)).1)
        (Event.quickMatch 7 9 none idRand)).2
      = [Msg.matched 7 9 1 (initGameState "versus" [] idRand),
         Msg.matched 7 9 2 (initGameState "versus" [] idRand)] ∧
    (step [] ((step [] sysInit (Event.quickMatch 7 8 none idRand)).1)
        (Event.quickMatch 7 9 none idRand)).1.connRoom 7 = some 9 :=
  c10_self_pair [] ((step [] sysInit (Event.quickMatch 7 8 none idRand)).1) 7 9 none idRand
    rfl rfl

-- The waiting-queue invariant (claim C7).

theorem inRoomB_false_iff (S : Sys) (c : Nat) :
    inRoomB S c = false ↔ ∀ p ∈ S.rooms, c ∉ p.2.players := by
  unfold inRoomB
  rw [decide_eq_false_iff_not]
  push_neg
  rfl

/-- Sender discipline under which the queue invariant is preserved:
matchmaking events only from connections not already queued, and
quick-match only from connections not already listed in a room. -/
def GoodEvent (S : Sys) : Event → Prop
  | .createRoom ws _ => ws ∉ S.waiting
  | .joinRoom ws _ _ _ => ws ∉ S.waiting
  | .quickMatch ws _ _ _ => ws ∉ S.waiting ∧ inRoomB S ws = false
  | _ => True

/-- System states reachable from `sysInit` under `GoodEvent`. -/
inductive ReachableG (dict : List String) : Sys → Prop where
  | start : ReachableG dict sysInit
  | next {S : Sys} {e : Event} : ReachableG dict S → GoodEvent S e →
      ReachableG dict (step dict S e).1

theorem waitInv_step (dict : List String) (S : Sys) (e : Event)
    (hnd : S.waiting.Nodup) (hno : ∀ c ∈ S.waiting, inRoomB S c = false)
    (hG : GoodEvent S e) :
    (step dict S e).1.waiting.Nodup ∧
      ∀ c ∈ (step dict S e).1.waiting, inRoomB (step dict S e).1 c = false := by
  cases e with
  | createRoom ws newId =>
    refine ⟨hnd, ?_⟩
    intro c hc
    rw [inRoomB_false_iff]
    intro p hp
    rcases mem_setR hp with hold | hnew
    · exact (inRoomB_false_iff S c).mp (hno c hc) p hold
    · subst hnew
      intro hmem
      have hcw : c = ws := by simpa using hmem
      subst hcw
      exact hG hc
  | joinRoom ws rid mode rand =>
    simp only [step]
    cases hx : lookupR S.rooms rid with
    | none => exact ⟨hnd, hno⟩
    | some room =>
      dsimp only
      by_cases hfull : 2 ≤ room.players.length
      · rw [if_pos hfull]
        exact ⟨hnd, hno⟩
      · rw [if_neg hfull]
        refine ⟨hnd, ?_⟩
        intro c hc
        rw [inRoomB_false_iff]
        intro p hp
        rcases mem_setR hp with hold | hnew
        · exact (inRoomB_false_iff S c).mp (hno c hc) p hold
        · subst hnew
          intro hmem
          rcases List.mem_append.mp hmem with hm1 | hm2
          · exact (inRoomB_false_iff S c).mp (hno c hc) (rid, room) (lookupR_mem hx) hm1
          · have hcw : c = ws := by simpa using hm2
            subst hcw
            exact hG hc
  | quickMatch ws newId mode rand =>
    obtain ⟨hGw, hGr⟩ := hG
    simp only [step]
    cases hw : S.waiting with
    | nil =>
      constructor
      · simp
      · intro c hc
        simp at hc
        subst hc
        exact hGr
    | cons peer rest =>
      have hnd2 := hnd
      rw [hw, List.nodup_cons] at hnd2
      refine ⟨hnd2.2, ?_⟩
      intro c hc
      rw [inRoomB_false_iff]
      intro p hp
      rcases mem_setR hp with hold | hnew
      · have hcw : c ∈ S.waiting := by
          rw [hw]
          exact List.mem_cons_of_mem peer hc
        exact (inRoomB_false_iff S c).mp (hno c hcw) p hold
      · subst hnew
        intro hmem
        have : c = peer ∨ c = ws := by simpa using hmem
        rcases this with h1 | h1 <;> subst h1
        · exact hnd2.1 hc
        · exact hGw (by rw [hw]; exact List.mem_cons_of_mem peer hc)
  | startGame ws mode rand =>
    simp only [step]
    cases hcr : S.connRoom ws with
    | none => exact ⟨hnd, hno⟩
    | some rid =>
      dsimp only
      cases hx : lookupR S.rooms rid with
      | none => exact ⟨hnd, hno⟩
      | some room =>
        dsimp only
        cases hst : room.state with
        | some st => exact ⟨hnd, hno⟩
        | none =>
          refine ⟨hnd, ?_⟩
          intro c hc
          rw [inRoomB_false_iff]
          intro p hp
          rcases mem_setR hp with hold | hnew
          · exact (inRoomB_false_iff S c).mp (hno c hc) p hold
          · subst hnew
            intro hmem
            exact (inRoomB_false_iff S c).mp (hno c hc) (rid, room) (lookupR_mem hx) hmem
  | submitWord ws word playerIndex =>
    simp only [step]
    cases hcr : S.connRoom ws with
    | none => exact ⟨hnd, hno⟩
    | some rid =>
      dsimp only
      cases hx : lookupR S.rooms rid with
      | none => exact ⟨hnd, hno⟩
      | some room =>
        dsimp only
        cases hst : room.state with
        | none => exact ⟨hnd, hno⟩
        | some st =>
          dsimp only
          cases hsub : submit dict st word playerIndex with
          | ignored => exact ⟨hnd, hno⟩
          | rejected r => exact ⟨hnd, hno⟩
          | accepted st1 =>
            refine ⟨hnd, ?_⟩
            intro c hc
            rw [inRoomB_false_iff]
            intro p hp
            rcases mem_setR hp with hold | hnew
            · exact (inRoomB_false_iff S c).mp (hno c hc) p hold
            · subst hnew
              intro hmem
              exact (inRoomB_false_iff S c).mp (hno c hc) (rid, room) (lookupR_mem hx) hmem
  | closeConn ws =>
    simp only [step]
    cases hcr : S.connRoom ws with
    | none =>
      refine ⟨hnd.erase ws, ?_⟩
      intro c hc
      exact hno c (List.mem_of_mem_erase hc)
    | some rid =>
      dsimp only
      cases hx : lookupR S.rooms rid with
      | none =>
        refine ⟨hnd.erase ws, ?_⟩
        intro c hc
        exact hno c (List.mem_of_mem_erase hc)
      | some room =>
        refine ⟨hnd, ?_⟩
        intro c hc
        rw [inRoomB_false_iff]
        intro p hp
        have hp2 : p ∈ S.rooms := List.mem_of_mem_filter hp
        exact (inRoomB_false_iff S c).mp (hno c hc) p hp2
  | getState ws =>
    simp only [step]
    cases hcr : S.connRoom ws with
    | none => exact ⟨hnd, hno⟩
    | some rid =>
      dsimp only
      cases hx : lookupR S.rooms rid with
      | none => exact ⟨hnd, hno⟩
      | some room => exact ⟨hnd, hno⟩

/-- Claim C7 (amended): in general a queued connection MAY be associated
with a room (see the counterexample); but under the discipline that
create-room, join-room and quick-match are only sent by connections not
already queued, and quick-match only by connections not already listed in
a room, every reachable state has a duplicate-free waiting queue whose
members are listed in no room of the registry. -/
theorem c7_queue_amended (dict : List String) (S : Sys) (h : ReachableG dict S) :
    S.waiting.Nodup ∧ ∀ c ∈ S.waiting, inRoomB S c = false := by
  induction h with
  | start => exact ⟨List.nodup_nil, fun c hc => absurd hc (List.not_mem_nil c)⟩
  | next hR hG ih => exact waitInv_step _ _ _ ih.1 ih.2 hG

/-- Claim C7 counterexample: the connection 5 creates room 3 and then
sends quick-match on the empty queue; afterwards it is simultaneously in
the waiting queue and listed as a player of the live room 3. -/
theorem c7_queue_counterexample :
    (applyEvents [] sysInit [Event.createRoom 5 3, Event.quickMatch 5 9 none idRand]).waiting
        = [5] ∧
    inRoomB (applyEvents [] sysInit [Event.createRoom 5 3, Event.quickMatch 5 9 none idRand]) 5
        = true ∧
    (applyEvents [] sysInit [Event.createRoom 5 3, Event.quickMatch 5 9 none idRand]).connRoom 5
        = some 3 := by
  decide

theorem c7_queue_witness :
    (step [] sysInit (Event.quickMatch 5 9 none idRand)).1.waiting.Nodup ∧
    inRoomB (step [] sysInit (Event.quickMatch 5 9 none idRand)).1 5 = false :=
  have h := c7_queue_amended [] (step [] sysInit (Event.quickMatch 5 9 none idRand)).1
    (ReachableG.next ReachableG.start ⟨by decide, by decide⟩)
  ⟨h.1, h.2 5 (by decide)⟩

end LetterChallenge
